import Mathlib

/-!
Shallow embedding of the Session Relay & Presence Coordinator of
`src/server.cjs` (the socket.io server of the audio-live repository).

The JavaScript `Map` named `activeSessions` is modelled as an association
list in insertion order: `Map.set` replaces the value in place when the key
is present and appends otherwise, `Map.delete` removes the entry for the
key, `Map.forEach` visits entries in insertion order.  A JavaScript `Set`
is modelled as a duplicate-free list in insertion order: `Set.add` appends
when absent, `Set.delete` removes the element, `Array.from` is the
identity on that list.

socket.io rooms are modelled explicitly: `socket.join(id)` adds the socket
to room `id` (idempotently); on transport disconnect socket.io removes the
socket from every room before the `disconnect` handler runs; the server
code itself never calls `socket.leave`.  `socket.emit(ev, p)` targets the
sender only, `io.to(r).emit(ev, p)` targets every socket currently in room
`r`, and `socket.to(r).emit(ev, p)` targets every socket in room `r`
except the sender.

The `setTimeout` scheduled by the close-session handler is modelled as a
pending-timer list in the state together with a separate `timerFire` event
that may be processed at any later point of the trace.
-/

namespace AudioLive

/-- An opaque audio payload (a byte sequence); the server never inspects it. -/
abbrev Chunk := List Nat

/-- Lookup in a JavaScript `Map` modelled as an association list
(first entry with the key wins; keys are unique in any state the server
reaches, since `Map.set` never duplicates a key). -/
def mapGet {β : Type} : List (String × β) → String → Option β
  | [], _ => none
  | (k', v) :: rest, k => if k' = k then some v else mapGet rest k

/-- `Map.set`: replace the value in place when the key is present,
append a new entry otherwise. -/
def mapSet {β : Type} : List (String × β) → String → β → List (String × β)
  | [], k, v => [(k, v)]
  | (k', v') :: rest, k, v =>
    if k' = k then (k, v) :: rest else (k', v') :: mapSet rest k v

/-- `Map.delete`: remove the entry for the key.  A `Map` never holds two
entries with one key, so filtering the key out is the same operation. -/
def mapDelete {β : Type} (m : List (String × β)) (k : String) :
    List (String × β) :=
  m.filter (fun p => p.1 ≠ k)

/-- `Map.has`. -/
def mapHas {β : Type} (m : List (String × β)) (k : String) : Bool :=
  (mapGet m k).isSome

/-- `Set.add`: append when absent, keep insertion order. -/
def setAdd (s : List String) (x : String) : List String :=
  if x ∈ s then s else s ++ [x]

/-- The session record stored in `activeSessions`
(src/server.cjs lines 47-52 and 117-122). -/
structure Session where
  host : String
  participants : List String
  active : Bool
  createdAt : Nat
deriving DecidableEq, Repr

/-- Target of one `emit` call. -/
inductive Target where
  /-- `socket.emit(...)`: the sender's own connection only. -/
  | sock (sid : String)
  /-- `io.to(name).emit(...)`: every socket currently in the room. -/
  | room (name : String)
  /-- `socket.to(name).emit(...)`: every socket in the room except the sender. -/
  | roomExcept (name sender : String)
deriving DecidableEq, Repr

/-- Payload of one `emit` call. -/
inductive Payload where
  | empty
  | str (s : String)
  | strs (l : List String)
  /-- the `connection-successful` object `{sessionId, role, hostId?, status?}`. -/
  | conn (sessionId role : String) (hostId status : Option String)
  /-- the `session-error` object `{code, message}`. -/
  | err (code message : String)
  | audio (c : Chunk)
deriving DecidableEq, Repr

/-- One outbound `emit` call performed by a handler. -/
structure Emission where
  target : Target
  event : String
  payload : Payload
deriving DecidableEq, Repr

/-- The server's mutable state: the `activeSessions` map, the socket.io
room membership, and the ids with a pending close-session removal timer. -/
structure ServerState where
  activeSessions : List (String × Session)
  rooms : List (String × List String)
  timers : List String
deriving DecidableEq, Repr

/-- The state at server start: no sessions, no rooms, no timers. -/
def initState : ServerState := ⟨[], [], []⟩

/-- The sockets currently in a room of a room table (absent room = empty). -/
def roomList (rooms : List (String × List String)) (name : String) : List String :=
  (mapGet rooms name).getD []

/-- The sockets currently in a room (absent room = empty). -/
def roomMembers (st : ServerState) (name : String) : List String :=
  roomList st.rooms name

/-- `socket.join(name)`: idempotent addition to the room. -/
def joinRoom (st : ServerState) (name sid : String) : ServerState :=
  { st with rooms := mapSet st.rooms name (setAdd (roomMembers st name) sid) }

/-- On transport disconnect socket.io removes the socket from every room
(before the `disconnect` handler runs). -/
def leaveAllRooms (st : ServerState) (sid : String) : ServerState :=
  { st with rooms := st.rooms.map (fun p => (p.1, p.2.erase sid)) }

/-- Whether one `emit` call reaches a given connection, resolved against
the room membership of the state at the end of the handler. -/
def deliversTo (st : ServerState) (e : Emission) (recipient : String) : Bool :=
  match e.target with
  | Target.sock s => recipient = s
  | Target.room n => recipient ∈ roomMembers st n
  | Target.roomExcept n x => recipient ∈ roomMembers st n ∧ recipient ≠ x

/-- The `create-session` handler (src/server.cjs lines 43-65):
unconditionally `Map.set` a fresh session with the caller as host and sole
participant, join the room, acknowledge with role `host`, status `created`. -/
def createSession (self sessionId : String) (now : Nat) (st : ServerState) :
    ServerState × List Emission :=
  let m := mapSet st.activeSessions sessionId ⟨self, [self], true, now⟩
  let st1 := { st with activeSessions := m }
  let st2 := joinRoom st1 sessionId self
  (st2, [⟨Target.sock self, "connection-successful",
          Payload.conn sessionId "host" none (some "created")⟩])

/-- The `check-session` handler's reply (src/server.cjs lines 68-76):
`exists` is true exactly when the id is present and the session active. -/
def checkSession (st : ServerState) (sessionId : String) : Bool :=
  match mapGet st.activeSessions sessionId with
  | some session => session.active
  | none => false

/-- The `join-session` handler (src/server.cjs lines 79-136): an inactive
session is rejected with `SESSION_CLOSED` to the sender only; an active one
is joined (room first, then the participant set) with the three success
emissions; an unknown id is created on the spot with the joiner as host. -/
def joinSession (self sessionId : String) (now : Nat) (st : ServerState) :
    ServerState × List Emission :=
  match mapGet st.activeSessions sessionId with
  | some session =>
    if session.active = false then
      (st, [⟨Target.sock self, "session-error",
             Payload.err "SESSION_CLOSED"
               "This session has been closed by the host."⟩])
    else
      let st1 := joinRoom st sessionId self
      let parts := setAdd session.participants self
      let m := mapSet st1.activeSessions sessionId
        { session with participants := parts }
      let st2 := { st1 with activeSessions := m }
      (st2,
        [⟨Target.sock self, "connection-successful",
          Payload.conn sessionId "participant" (some session.host) none⟩,
         ⟨Target.roomExcept sessionId self, "participant-joined", Payload.str self⟩,
         ⟨Target.sock self, "participants-list",
          Payload.strs (parts.filter (fun i => i ≠ self))⟩])
  | none =>
    let m := mapSet st.activeSessions sessionId ⟨self, [self], true, now⟩
    let st1 := { st with activeSessions := m }
    let st2 := joinRoom st1 sessionId self
    (st2, [⟨Target.sock self, "connection-successful",
            Payload.conn sessionId "host" none (some "created-on-join")⟩])

/-- The helper `handleParticipantLeaving` (src/server.cjs lines 225-248):
delete the socket from the participant set, broadcast `participant-left` to
the room, then delete the session when empty, or reassign the host to the
first remaining participant when the host left. -/
def handleParticipantLeaving (socketId sessionId : String) (st : ServerState) :
    ServerState × List Emission :=
  match mapGet st.activeSessions sessionId with
  | none => (st, [])
  | some session =>
    let parts := session.participants.erase socketId
    let left : Emission := ⟨Target.room sessionId, "participant-left",
                            Payload.str socketId⟩
    if parts.length = 0 then
      ({ st with activeSessions := mapDelete st.activeSessions sessionId },
       [left])
    else if session.host = socketId ∧ 0 < parts.length then
      let newHost := parts.headI
      let m := mapSet st.activeSessions sessionId
        { session with participants := parts, host := newHost }
      ({ st with activeSessions := m },
       [left, ⟨Target.room sessionId, "new-host", Payload.str newHost⟩])
    else
      let m := mapSet st.activeSessions sessionId
        { session with participants := parts }
      ({ st with activeSessions := m },
       [left])

/-- The `leave-session` handler (src/server.cjs lines 139-143): the guard
`if (sessionId && activeSessions.has(sessionId))` drops a falsy id (the
empty string) and an unknown id; otherwise `handleParticipantLeaving`. -/
def leaveSession (self sessionId : String) (st : ServerState) :
    ServerState × List Emission :=
  if sessionId ≠ "" ∧ mapHas st.activeSessions sessionId then
    handleParticipantLeaving self sessionId st
  else (st, [])

/-- The `close-session` handler (src/server.cjs lines 146-175): the host
marks the session inactive, broadcasts `session-closed` to the room, and
schedules the delayed removal; a non-host gets `NOT_SESSION_HOST`. -/
def closeSession (self sessionId : String) (st : ServerState) :
    ServerState × List Emission :=
  if sessionId = "" then (st, [])
  else
    match mapGet st.activeSessions sessionId with
    | none => (st, [])
    | some session =>
      if session.host = self then
        let m := mapSet st.activeSessions sessionId
          { session with active := false }
        ({ st with activeSessions := m, timers := st.timers ++ [sessionId] },
         [⟨Target.room sessionId, "session-closed", Payload.str sessionId⟩])
      else
        (st, [⟨Target.sock self, "session-error",
               Payload.err "NOT_SESSION_HOST"
                 "Only the session host can close a session."⟩])

/-- The body of the `setTimeout` callback scheduled by close-session
(src/server.cjs lines 160-165): delete the id if it is still present. -/
def fireRemoval (sessionId : String) (st : ServerState) : ServerState :=
  if mapHas st.activeSessions sessionId then
    { st with activeSessions := mapDelete st.activeSessions sessionId }
  else st

/-- The `audio-chunk` handler (src/server.cjs lines 178-192): guarded by a
truthy id, a present session and `active`; the payload is forwarded as-is
to the room minus the sender (`socket.to(sessionId).emit`). -/
def audioChunk (self : String) (payload : Chunk) (sessionId : String)
    (st : ServerState) : ServerState × List Emission :=
  if sessionId = "" then (st, [])
  else
    match mapGet st.activeSessions sessionId with
    | none => (st, [])
    | some session =>
      if session.active then
        (st, [⟨Target.roomExcept sessionId self, "audio-chunk",
               Payload.audio payload⟩])
      else (st, [])

/-- The `recording-started` handler (src/server.cjs lines 195-200). -/
def recordingStarted (self sessionId : String) (st : ServerState) :
    ServerState × List Emission :=
  if sessionId ≠ "" ∧ mapHas st.activeSessions sessionId then
    (st, [⟨Target.roomExcept sessionId self, "participant-recording",
           Payload.str self⟩])
  else (st, [])

/-- The `stop-recording` handler (src/server.cjs lines 203-210); the
broadcast `io.to(sessionId)` includes the sender. -/
def stopRecording (_self sessionId : String) (st : ServerState) :
    ServerState × List Emission :=
  if sessionId ≠ "" ∧ mapHas st.activeSessions sessionId then
    (st, [⟨Target.room sessionId, "stop-recording", Payload.empty⟩])
  else (st, [])

/-- The `disconnect` handler (src/server.cjs lines 213-222).  socket.io has
already removed the socket from every room.  `Map.forEach` visits all
entries in insertion order and runs `handleParticipantLeaving` on those
containing the socket; since that helper only ever rewrites or deletes the
entry of the id it is given, the live iteration over the map equals taking
the snapshot of affected ids first and folding the helper over them. -/
def disconnectStep (self : String) (st : ServerState) :
    ServerState × List Emission :=
  let st1 := leaveAllRooms st self
  let ids := (st1.activeSessions.filter
    (fun p => self ∈ p.2.participants)).map Prod.fst
  ids.foldl (fun acc sessionId =>
    let r := handleParticipantLeaving self sessionId acc.1
    (r.1, acc.2 ++ r.2)) (st1, [])

/-- The inbound events the coordinator consumes; `timerFire` is the
delayed-removal callback becoming due. -/
inductive Event where
  | create (self sessionId : String) (now : Nat)
  | check (self sessionId : String)
  | join (self sessionId : String) (now : Nat)
  | leave (self sessionId : String)
  | close (self sessionId : String)
  | chunk (self : String) (payload : Chunk) (sessionId : String)
  | recStart (self sessionId : String)
  | recStop (self sessionId : String)
  | disconnect (self : String)
  | timerFire (sessionId : String)
deriving DecidableEq, Repr

/-- One step of the event loop: dispatch to the matching handler.  A
`timerFire` is only processed for an id with a pending timer (a `setTimeout`
callback runs once, after it was scheduled); `check-session` replies through
its callback and never mutates. -/
def step : Event → ServerState → ServerState × List Emission
  | Event.create self id now, st => createSession self id now st
  | Event.check _ _, st => (st, [])
  | Event.join self id now, st => joinSession self id now st
  | Event.leave self id, st => leaveSession self id st
  | Event.close self id, st => closeSession self id st
  | Event.chunk self payload id, st => audioChunk self payload id st
  | Event.recStart self id, st => recordingStarted self id st
  | Event.recStop self id, st => stopRecording self id st
  | Event.disconnect self, st => disconnectStep self st
  | Event.timerFire id, st =>
    if id ∈ st.timers then
      (fireRemoval id { st with timers := st.timers.erase id }, [])
    else (st, [])

/-- Replay of a whole trace of events from a state. -/
def run (st : ServerState) : List Event → ServerState
  | [] => st
  | e :: rest => run (step e st).1 rest

/-- The states the server can reach from start-up. -/
inductive Reachable : ServerState → Prop where
  | init : Reachable initState
  | next (e : Event) {st : ServerState} :
      Reachable st → Reachable (step e st).1

/-! ### Association-list (JavaScript `Map`) lemmas -/

theorem mapGet_set_self {β : Type} (m : List (String × β)) (k : String) (v : β) :
    mapGet (mapSet m k v) k = some v := by
  induction m with
  | nil => simp [mapGet, mapSet]
  | cons p rest ih =>
    obtain ⟨a, b⟩ := p
    by_cases h : a = k
    · simp [mapSet, mapGet, h]
    · simp [mapSet, mapGet, h, ih]

theorem mapGet_set_ne {β : Type} (m : List (String × β)) {k k' : String} (v : β)
    (h : k' ≠ k) : mapGet (mapSet m k v) k' = mapGet m k' := by
  have h' : ¬k = k' := fun hh => h hh.symm
  induction m with
  | nil => simp [mapGet, mapSet, h']
  | cons p rest ih =>
    obtain ⟨a, b⟩ := p
    by_cases hp : a = k
    · subst hp
      simp [mapSet, mapGet, h']
    · simp only [mapSet, hp, if_neg, not_false_iff]
      by_cases hp' : a = k'
      · simp [mapGet, hp']
      · simp [mapGet, hp', ih]

theorem mapGet_delete_self {β : Type} (m : List (String × β)) (k : String) :
    mapGet (mapDelete m k) k = none := by
  induction m with
  | nil => simp [mapGet, mapDelete]
  | cons p rest ih =>
    obtain ⟨a, b⟩ := p
    by_cases h : a = k
    · simpa [mapDelete, h] using ih
    · simpa [mapDelete, mapGet, h] using ih

theorem mapGet_delete_ne {β : Type} (m : List (String × β)) {k k' : String}
    (h : k' ≠ k) : mapGet (mapDelete m k) k' = mapGet m k' := by
  induction m with
  | nil => simp [mapGet, mapDelete]
  | cons p rest ih =>
    obtain ⟨a, b⟩ := p
    by_cases hp : a = k
    · subst hp
      have hp' : ¬a = k' := fun hh => h (hh.symm ▸ rfl)
      simpa [mapDelete, mapGet, hp'] using ih
    · by_cases hp' : a = k'
      · subst hp'
        simp [mapDelete, List.filter_cons, hp, mapGet]
      · simpa [mapDelete, mapGet, hp, hp'] using ih

theorem mapGet_mem {β : Type} {m : List (String × β)} {k : String} {v : β}
    (h : mapGet m k = some v) : (k, v) ∈ m := by
  induction m with
  | nil => simp [mapGet] at h
  | cons p rest ih =>
    obtain ⟨a, b⟩ := p
    by_cases hp : a = k
    · subst hp
      simp only [mapGet, if_pos] at h
      obtain rfl : b = v := Option.some.inj h
      exact List.mem_cons_self _ _
    · simp only [mapGet, hp, if_neg, not_false_iff] at h
      exact List.mem_cons_of_mem _ (ih h)

theorem mapGet_eq_none_of_not_mem_keys {β : Type} {m : List (String × β)}
    {k : String} (h : k ∉ m.map Prod.fst) : mapGet m k = none := by
  induction m with
  | nil => simp [mapGet]
  | cons p rest ih =>
    obtain ⟨a, b⟩ := p
    simp only [List.map_cons, List.mem_cons, not_or] at h
    have ha : ¬a = k := fun hh => h.1 hh.symm
    simp [mapGet, ha, ih h.2]

theorem mem_keys_of_mapGet {β : Type} {m : List (String × β)} {k : String}
    {v : β} (h : mapGet m k = some v) : k ∈ m.map Prod.fst := by
  have := mapGet_mem h
  exact List.mem_map.mpr ⟨(k, v), this, rfl⟩

theorem keys_mapSet {β : Type} (m : List (String × β)) (k : String) (v : β) :
    (mapSet m k v).map Prod.fst =
      if k ∈ m.map Prod.fst then m.map Prod.fst else m.map Prod.fst ++ [k] := by
  induction m with
  | nil => simp [mapSet]
  | cons p rest ih =>
    obtain ⟨a, b⟩ := p
    by_cases hp : a = k
    · simp [mapSet, hp]
    · have hp2 : ¬k = a := fun hh => hp hh.symm
      by_cases hk : k ∈ rest.map Prod.fst
      · simp [mapSet, hp, hp2, hk, ih]
      · simp [mapSet, hp, hp2, hk, ih]

theorem keys_mapSet_nodup {β : Type} {m : List (String × β)} (k : String)
    (v : β) (h : (m.map Prod.fst).Nodup) :
    ((mapSet m k v).map Prod.fst).Nodup := by
  rw [keys_mapSet]
  by_cases hk : k ∈ m.map Prod.fst
  · simpa [hk] using h
  · have hd : (m.map Prod.fst).Disjoint [k] := by
      intro a ha hak
      simp only [List.mem_singleton] at hak
      subst hak
      exact hk ha
    simpa [hk] using List.Nodup.append h (List.nodup_singleton k) hd

theorem keys_mapDelete_nodup {β : Type} {m : List (String × β)} (k : String)
    (h : (m.map Prod.fst).Nodup) :
    ((mapDelete m k).map Prod.fst).Nodup :=
  h.sublist ((List.filter_sublist m).map Prod.fst)

theorem mapSet_get_self {β : Type} {m : List (String × β)} {k : String}
    {v : β} (h : mapGet m k = some v) : mapSet m k v = m := by
  induction m with
  | nil => simp [mapGet] at h
  | cons p rest ih =>
    by_cases hp : p.1 = k
    · simp only [mapGet, hp, if_pos] at h
      cases p
      simp_all [mapSet]
    · simp only [mapGet, hp, if_neg, not_false_iff] at h
      simp [mapSet, hp, ih h]

/-! ### `Set.add` lemmas -/

theorem mem_setAdd {s : List String} {x y : String} :
    x ∈ setAdd s y ↔ x ∈ s ∨ x = y := by
  unfold setAdd
  by_cases h : y ∈ s
  · simp only [h, if_pos]
    constructor
    · exact Or.inl
    · rintro (hx | rfl) <;> [exact hx; exact h]
  · simp [h]

theorem setAdd_nodup {s : List String} (x : String) (h : s.Nodup) :
    (setAdd s x).Nodup := by
  unfold setAdd
  by_cases hx : x ∈ s
  · simpa [hx] using h
  · have hd : s.Disjoint [x] := by
      intro a ha hax
      simp only [List.mem_singleton] at hax
      subst hax
      exact hx ha
    simpa [hx] using List.Nodup.append h (List.nodup_singleton x) hd

theorem setAdd_ne_nil (s : List String) (x : String) : setAdd s x ≠ [] := by
  unfold setAdd
  by_cases hx : x ∈ s
  · simp only [hx, if_pos]
    exact List.ne_nil_of_mem hx
  · simp [hx]

/-! ### Room lemmas -/

theorem roomMembers_joinRoom (st : ServerState) (name sid n : String) :
    roomMembers (joinRoom st name sid) n =
      if n = name then setAdd (roomMembers st name) sid else roomMembers st n := by
  by_cases h : n = name
  · subst h
    simp [roomMembers, joinRoom, roomList, mapGet_set_self]
  · simp [roomMembers, joinRoom, roomList, mapGet_set_ne _ _ h, h]

theorem mapGet_erase_rooms (m : List (String × List String)) (sid k : String) :
    mapGet (m.map (fun p => (p.1, p.2.erase sid))) k =
      (mapGet m k).map (fun l => l.erase sid) := by
  induction m with
  | nil => simp [mapGet]
  | cons p rest ih =>
    obtain ⟨a, b⟩ := p
    by_cases h : a = k
    · simp [mapGet, h]
    · simp [mapGet, h, ih]

theorem roomMembers_leaveAllRooms (st : ServerState) (sid n : String) :
    roomMembers (leaveAllRooms st sid) n = (roomMembers st n).erase sid := by
  unfold roomMembers roomList leaveAllRooms
  simp only
  rw [mapGet_erase_rooms]
  cases mapGet st.rooms n <;> simp

theorem headI_mem {l : List String} (h : l ≠ []) : l.headI ∈ l := by
  cases l with
  | nil => exact absurd rfl h
  | cons a t => exact List.mem_cons_self a t

/-! ### Branch characterizations of the handlers -/

theorem createSession_eq (self sessionId : String) (now : Nat)
    (st : ServerState) :
    createSession self sessionId now st =
      ({ st with
          activeSessions :=
            mapSet st.activeSessions sessionId ⟨self, [self], true, now⟩,
          rooms :=
            mapSet st.rooms sessionId (setAdd (roomList st.rooms sessionId) self) },
       [⟨Target.sock self, "connection-successful",
         Payload.conn sessionId "host" none (some "created")⟩]) := rfl

theorem joinSession_closed {st : ServerState} (self : String)
    {sessionId : String} (now : Nat) {session : Session}
    (hget : mapGet st.activeSessions sessionId = some session)
    (hact : session.active = false) :
    joinSession self sessionId now st =
      (st, [⟨Target.sock self, "session-error",
             Payload.err "SESSION_CLOSED"
               "This session has been closed by the host."⟩]) := by
  simp [joinSession, hget, hact]

theorem joinSession_active {st : ServerState} (self : String)
    {sessionId : String} (now : Nat) {session : Session}
    (hget : mapGet st.activeSessions sessionId = some session)
    (hact : session.active = true) :
    joinSession self sessionId now st =
      ({ st with
          activeSessions := mapSet st.activeSessions sessionId
            { session with participants := setAdd session.participants self },
          rooms :=
            mapSet st.rooms sessionId (setAdd (roomList st.rooms sessionId) self) },
       [⟨Target.sock self, "connection-successful",
         Payload.conn sessionId "participant" (some session.host) none⟩,
        ⟨Target.roomExcept sessionId self, "participant-joined", Payload.str self⟩,
        ⟨Target.sock self, "participants-list",
         Payload.strs ((setAdd session.participants self).filter
           (fun i => i ≠ self))⟩]) := by
  simp [joinSession, hget, hact, joinRoom, roomMembers]

theorem joinSession_absent {st : ServerState} (self sessionId : String)
    (now : Nat) (hget : mapGet st.activeSessions sessionId = none) :
    joinSession self sessionId now st =
      ({ st with
          activeSessions :=
            mapSet st.activeSessions sessionId ⟨self, [self], true, now⟩,
          rooms :=
            mapSet st.rooms sessionId (setAdd (roomList st.rooms sessionId) self) },
       [⟨Target.sock self, "connection-successful",
         Payload.conn sessionId "host" none (some "created-on-join")⟩]) := by
  simp [joinSession, hget, joinRoom, roomMembers]

theorem hpl_absent {st : ServerState} (c : String) {sessionId : String}
    (hget : mapGet st.activeSessions sessionId = none) :
    handleParticipantLeaving c sessionId st = (st, []) := by
  simp [handleParticipantLeaving, hget]

theorem hpl_empties {st : ServerState} {c sessionId : String} {s : Session}
    (hget : mapGet st.activeSessions sessionId = some s)
    (hemp : s.participants.erase c = []) :
    handleParticipantLeaving c sessionId st =
      ({ st with activeSessions := mapDelete st.activeSessions sessionId },
       [⟨Target.room sessionId, "participant-left", Payload.str c⟩]) := by
  simp [handleParticipantLeaving, hget, hemp]

theorem hpl_host {st : ServerState} {c sessionId : String} {s : Session}
    (hget : mapGet st.activeSessions sessionId = some s)
    (hemp : s.participants.erase c ≠ [])
    (hhost : s.host = c) :
    handleParticipantLeaving c sessionId st =
      (⟨mapSet st.activeSessions sessionId
          { s with participants := s.participants.erase c,
                   host := (s.participants.erase c).headI },
        st.rooms, st.timers⟩,
       [⟨Target.room sessionId, "participant-left", Payload.str c⟩,
        ⟨Target.room sessionId, "new-host",
         Payload.str (s.participants.erase c).headI⟩]) := by
  have hlen : ¬(s.participants.erase c).length = 0 := by
    simpa [List.length_eq_zero] using hemp
  have hpos : 0 < (s.participants.erase c).length :=
    Nat.pos_of_ne_zero hlen
  simp [handleParticipantLeaving, hget, hlen, hhost, hpos]

theorem hpl_other {st : ServerState} {c sessionId : String} {s : Session}
    (hget : mapGet st.activeSessions sessionId = some s)
    (hemp : s.participants.erase c ≠ [])
    (hhost : s.host ≠ c) :
    handleParticipantLeaving c sessionId st =
      (⟨mapSet st.activeSessions sessionId
          { s with participants := s.participants.erase c },
        st.rooms, st.timers⟩,
       [⟨Target.room sessionId, "participant-left", Payload.str c⟩]) := by
  have hlen : ¬(s.participants.erase c).length = 0 := by
    simpa [List.length_eq_zero] using hemp
  simp [handleParticipantLeaving, hget, hlen, hhost]

theorem closeSession_host {st : ServerState} {self sessionId : String}
    {s : Session} (hid : sessionId ≠ "")
    (hget : mapGet st.activeSessions sessionId = some s)
    (hhost : s.host = self) :
    closeSession self sessionId st =
      ({ st with
          activeSessions := mapSet st.activeSessions sessionId
            { s with active := false },
          timers := st.timers ++ [sessionId] },
       [⟨Target.room sessionId, "session-closed", Payload.str sessionId⟩]) := by
  simp [closeSession, hid, hget, hhost]

theorem closeSession_nonhost {st : ServerState} {self sessionId : String}
    {s : Session} (hid : sessionId ≠ "")
    (hget : mapGet st.activeSessions sessionId = some s)
    (hhost : s.host ≠ self) :
    closeSession self sessionId st =
      (st, [⟨Target.sock self, "session-error",
             Payload.err "NOT_SESSION_HOST"
               "Only the session host can close a session."⟩]) := by
  simp [closeSession, hid, hget, hhost]

theorem audioChunk_fst (self : String) (payload : Chunk) (sessionId : String)
    (st : ServerState) : (audioChunk self payload sessionId st).1 = st := by
  by_cases h : sessionId = ""
  · simp [audioChunk, h]
  · cases hget : mapGet st.activeSessions sessionId with
    | none => simp [audioChunk, h, hget]
    | some s =>
      by_cases ha : s.active = true
      · simp [audioChunk, h, hget, ha]
      · simp [audioChunk, h, hget, ha]

theorem recordingStarted_fst (self sessionId : String) (st : ServerState) :
    (recordingStarted self sessionId st).1 = st := by
  unfold recordingStarted
  split <;> rfl

theorem stopRecording_fst (self sessionId : String) (st : ServerState) :
    (stopRecording self sessionId st).1 = st := by
  unfold stopRecording
  split <;> rfl

theorem audioChunk_active {st : ServerState} (self : String) (payload : Chunk)
    {sessionId : String} {s : Session} (hid : sessionId ≠ "")
    (hget : mapGet st.activeSessions sessionId = some s)
    (hact : s.active = true) :
    audioChunk self payload sessionId st =
      (st, [⟨Target.roomExcept sessionId self, "audio-chunk",
             Payload.audio payload⟩]) := by
  simp [audioChunk, hid, hget, hact]

/-! ### The registry invariant -/

/-- The conditions a stored session satisfies, relative to a room table:
non-empty membership, the host a member, duplicate-free membership, and
every member present in that session's socket.io room. -/
def SessionOK (rooms : List (String × List String)) (sessionId : String)
    (s : Session) : Prop :=
  s.participants ≠ [] ∧ s.host ∈ s.participants ∧ s.participants.Nodup ∧
  ∀ x ∈ s.participants, x ∈ roomList rooms sessionId

/-- The server-state invariant: the registry's keys are duplicate-free and
every stored session satisfies `SessionOK`. -/
def Inv (st : ServerState) : Prop :=
  (st.activeSessions.map Prod.fst).Nodup ∧
  ∀ sessionId s, mapGet st.activeSessions sessionId = some s →
    SessionOK st.rooms sessionId s

theorem sessionOK_joinRoomTable {st : ServerState} {name sid n : String}
    {s : Session} (h : SessionOK st.rooms n s) :
    SessionOK (mapSet st.rooms name (setAdd (roomList st.rooms name) sid)) n s := by
  refine ⟨h.1, h.2.1, h.2.2.1, fun x hx => ?_⟩
  have hm := h.2.2.2 x hx
  by_cases hn : n = name
  · subst hn
    rw [roomList, mapGet_set_self]
    exact mem_setAdd.mpr (Or.inl hm)
  · rw [roomList, mapGet_set_ne _ _ hn]
    exact hm

theorem inv_createSession {st : ServerState} (self sessionId : String)
    (now : Nat) (h : Inv st) : Inv (createSession self sessionId now st).1 := by
  rw [createSession_eq]
  refine ⟨keys_mapSet_nodup _ _ h.1, ?_⟩
  intro id s hget
  simp only at hget ⊢
  by_cases hid : id = sessionId
  · subst hid
    rw [mapGet_set_self] at hget
    obtain rfl : Session.mk self [self] true now = s := Option.some.inj hget
    refine ⟨by simp, by simp, by simp, ?_⟩
    intro x hx
    simp only [List.mem_singleton] at hx
    subst hx
    rw [roomList, mapGet_set_self]
    exact mem_setAdd.mpr (Or.inr rfl)
  · rw [mapGet_set_ne _ _ hid] at hget
    exact sessionOK_joinRoomTable (h.2 id s hget)

theorem inv_joinSession {st : ServerState} (self sessionId : String)
    (now : Nat) (h : Inv st) : Inv (joinSession self sessionId now st).1 := by
  cases hget : mapGet st.activeSessions sessionId with
  | none =>
    rw [joinSession_absent self sessionId now hget]
    refine ⟨keys_mapSet_nodup _ _ h.1, ?_⟩
    intro id s hget'
    simp only at hget' ⊢
    by_cases hid : id = sessionId
    · subst hid
      rw [mapGet_set_self] at hget'
      obtain rfl : Session.mk self [self] true now = s := Option.some.inj hget'
      refine ⟨by simp, by simp, by simp, ?_⟩
      intro x hx
      simp only [List.mem_singleton] at hx
      subst hx
      rw [roomList, mapGet_set_self]
      exact mem_setAdd.mpr (Or.inr rfl)
    · rw [mapGet_set_ne _ _ hid] at hget'
      exact sessionOK_joinRoomTable (h.2 id s hget')
  | some session =>
    by_cases hact : session.active = true
    · rw [joinSession_active self now hget hact]
      refine ⟨keys_mapSet_nodup _ _ h.1, ?_⟩
      intro id s hget'
      simp only at hget' ⊢
      obtain ⟨h1, h2, h3, h4⟩ := h.2 sessionId session hget
      by_cases hid : id = sessionId
      · subst hid
        rw [mapGet_set_self] at hget'
        obtain rfl := Option.some.inj hget'
        refine ⟨setAdd_ne_nil _ _, ?_, setAdd_nodup _ h3, ?_⟩
        · exact mem_setAdd.mpr (Or.inl h2)
        · intro x hx
          rw [roomList, mapGet_set_self]
          rcases mem_setAdd.mp hx with hx' | hx'
          · exact mem_setAdd.mpr (Or.inl (h4 x hx'))
          · subst hx'
            exact mem_setAdd.mpr (Or.inr rfl)
      · rw [mapGet_set_ne _ _ hid] at hget'
        exact sessionOK_joinRoomTable (h.2 id s hget')
    · have hact' : session.active = false := by
        cases hb : session.active with
        | true => exact absurd hb hact
        | false => rfl
      rw [joinSession_closed self now hget hact']
      exact h

theorem inv_hpl {st : ServerState} (c sessionId : String) (h : Inv st) :
    Inv (handleParticipantLeaving c sessionId st).1 := by
  cases hget : mapGet st.activeSessions sessionId with
  | none =>
    rw [hpl_absent c hget]
    exact h
  | some s =>
    by_cases hemp : s.participants.erase c = []
    · rw [hpl_empties hget hemp]
      refine ⟨keys_mapDelete_nodup _ h.1, ?_⟩
      intro id t hget'
      simp only at hget' ⊢
      by_cases hid : id = sessionId
      · subst hid
        rw [mapGet_delete_self] at hget'
        cases hget'
      · rw [mapGet_delete_ne _ hid] at hget'
        exact h.2 id t hget'
    · obtain ⟨h1, h2, h3, h4⟩ := h.2 sessionId s hget
      by_cases hhost : s.host = c
      · rw [hpl_host hget hemp hhost]
        refine ⟨keys_mapSet_nodup _ _ h.1, ?_⟩
        intro id t hget'
        simp only at hget' ⊢
        by_cases hid : id = sessionId
        · subst hid
          rw [mapGet_set_self] at hget'
          obtain rfl := Option.some.inj hget'
          refine ⟨hemp, headI_mem hemp, h3.erase c, ?_⟩
          intro x hx
          exact h4 x (List.erase_subset c s.participants hx)
        · rw [mapGet_set_ne _ _ hid] at hget'
          exact h.2 id t hget'
      · rw [hpl_other hget hemp hhost]
        refine ⟨keys_mapSet_nodup _ _ h.1, ?_⟩
        intro id t hget'
        simp only at hget' ⊢
        by_cases hid : id = sessionId
        · subst hid
          rw [mapGet_set_self] at hget'
          obtain rfl := Option.some.inj hget'
          refine ⟨hemp, (List.mem_erase_of_ne hhost).mpr h2, h3.erase c, ?_⟩
          intro x hx
          exact h4 x (List.erase_subset c s.participants hx)
        · rw [mapGet_set_ne _ _ hid] at hget'
          exact h.2 id t hget'

theorem inv_leaveSession {st : ServerState} (self sessionId : String)
    (h : Inv st) : Inv (leaveSession self sessionId st).1 := by
  unfold leaveSession
  split
  · exact inv_hpl self sessionId h
  · exact h

theorem inv_closeSession {st : ServerState} (self sessionId : String)
    (h : Inv st) : Inv (closeSession self sessionId st).1 := by
  by_cases hid : sessionId = ""
  · simp [closeSession, hid]
    exact h
  · cases hget : mapGet st.activeSessions sessionId with
    | none =>
      simp [closeSession, hid, hget]
      exact h
    | some s =>
      by_cases hhost : s.host = self
      · rw [closeSession_host hid hget hhost]
        refine ⟨keys_mapSet_nodup _ _ h.1, ?_⟩
        intro id t hget'
        simp only at hget' ⊢
        by_cases hid' : id = sessionId
        · subst hid'
          rw [mapGet_set_self] at hget'
          obtain rfl := Option.some.inj hget'
          obtain ⟨h1, h2, h3, h4⟩ := h.2 id s hget
          exact ⟨h1, h2, h3, h4⟩
        · rw [mapGet_set_ne _ _ hid'] at hget'
          exact h.2 id t hget'
      · rw [closeSession_nonhost hid hget hhost]
        exact h

theorem inv_fireRemoval {st : ServerState} (sessionId : String) (h : Inv st) :
    Inv (fireRemoval sessionId st) := by
  unfold fireRemoval
  split
  · refine ⟨keys_mapDelete_nodup _ h.1, ?_⟩
    intro id t hget'
    simp only at hget' ⊢
    by_cases hid : id = sessionId
    · subst hid
      rw [mapGet_delete_self] at hget'
      cases hget'
    · rw [mapGet_delete_ne _ hid] at hget'
      exact h.2 id t hget'
  · exact h

/-! ### The disconnect handler as a sequence of participant removals -/

/-- Sequential application of `handleParticipantLeaving` to a list of
session ids, collecting the emissions in order. -/
def hplSeq (self : String) : List String → ServerState → ServerState × List Emission
  | [], st => (st, [])
  | sessionId :: rest, st =>
    let r := handleParticipantLeaving self sessionId st
    let r2 := hplSeq self rest r.1
    (r2.1, r.2 ++ r2.2)

theorem disconnect_foldl_eq (self : String) (ids : List String) :
    ∀ (st : ServerState) (es : List Emission),
    ids.foldl (fun acc sessionId =>
      let r := handleParticipantLeaving self sessionId acc.1
      (r.1, acc.2 ++ r.2)) (st, es) =
    ((hplSeq self ids st).1, es ++ (hplSeq self ids st).2) := by
  induction ids with
  | nil =>
    intro st es
    simp [hplSeq]
  | cons sessionId rest ih =>
    intro st es
    simp only [List.foldl_cons, hplSeq]
    rw [ih]
    simp

theorem disconnectStep_eq (self : String) (st : ServerState) :
    disconnectStep self st =
      hplSeq self
        ((st.activeSessions.filter (fun p => self ∈ p.2.participants)).map
          Prod.fst)
        (leaveAllRooms st self) := by
  unfold disconnectStep
  rw [disconnect_foldl_eq]
  simp [leaveAllRooms]

/-- The intermediate invariant while the disconnect handler walks the
registry: the socket has already left every room, and every session that
still contains it is among the ids still pending processing. -/
def PendingInv (self : String) (st : ServerState) (pending : List String) : Prop :=
  (st.activeSessions.map Prod.fst).Nodup ∧
  ∀ sessionId s, mapGet st.activeSessions sessionId = some s →
    (s.participants ≠ [] ∧ s.host ∈ s.participants ∧ s.participants.Nodup ∧
      ∀ x ∈ s.participants, x ≠ self → x ∈ roomList st.rooms sessionId) ∧
    (self ∈ s.participants → sessionId ∈ pending)

theorem pendingInv_hpl {self : String} {st : ServerState} {sessionId : String}
    {pending : List String}
    (h : PendingInv self st (sessionId :: pending)) :
    PendingInv self (handleParticipantLeaving self sessionId st).1 pending := by
  cases hget : mapGet st.activeSessions sessionId with
  | none =>
    rw [hpl_absent self hget]
    refine ⟨h.1, ?_⟩
    intro id s hget'
    obtain ⟨hok, hpend⟩ := h.2 id s hget'
    refine ⟨hok, fun hself => ?_⟩
    rcases List.mem_cons.mp (hpend hself) with hh | hh
    · subst hh
      rw [hget] at hget'
      cases hget'
    · exact hh
  | some s =>
    obtain ⟨⟨h1, h2, h3, h4⟩, _⟩ := h.2 sessionId s hget
    by_cases hemp : s.participants.erase self = []
    · rw [hpl_empties hget hemp]
      refine ⟨keys_mapDelete_nodup _ h.1, ?_⟩
      intro id t hget'
      simp only at hget' ⊢
      by_cases hid : id = sessionId
      · subst hid
        rw [mapGet_delete_self] at hget'
        cases hget'
      · rw [mapGet_delete_ne _ hid] at hget'
        obtain ⟨hok, hpend⟩ := h.2 id t hget'
        refine ⟨hok, fun hself => ?_⟩
        rcases List.mem_cons.mp (hpend hself) with hh | hh
        · exact absurd hh hid
        · exact hh
    · by_cases hhost : s.host = self
      · rw [hpl_host hget hemp hhost]
        refine ⟨keys_mapSet_nodup _ _ h.1, ?_⟩
        intro id t hget'
        simp only at hget' ⊢
        by_cases hid : id = sessionId
        · subst hid
          rw [mapGet_set_self] at hget'
          obtain rfl := Option.some.inj hget'
          refine ⟨⟨hemp, headI_mem hemp, h3.erase self, ?_⟩, ?_⟩
          · intro x hx hxs
            exact h4 x (List.erase_subset self s.participants hx) hxs
          · intro hself
            exact absurd hself (h3.not_mem_erase)
        · rw [mapGet_set_ne _ _ hid] at hget'
          obtain ⟨hok, hpend⟩ := h.2 id t hget'
          refine ⟨hok, fun hself => ?_⟩
          rcases List.mem_cons.mp (hpend hself) with hh | hh
          · exact absurd hh hid
          · exact hh
      · rw [hpl_other hget hemp hhost]
        refine ⟨keys_mapSet_nodup _ _ h.1, ?_⟩
        intro id t hget'
        simp only at hget' ⊢
        by_cases hid : id = sessionId
        · subst hid
          rw [mapGet_set_self] at hget'
          obtain rfl := Option.some.inj hget'
          refine ⟨⟨hemp, (List.mem_erase_of_ne hhost).mpr h2, h3.erase self, ?_⟩, ?_⟩
          · intro x hx hxs
            exact h4 x (List.erase_subset self s.participants hx) hxs
          · intro hself
            exact absurd hself (h3.not_mem_erase)
        · rw [mapGet_set_ne _ _ hid] at hget'
          obtain ⟨hok, hpend⟩ := h.2 id t hget'
          refine ⟨hok, fun hself => ?_⟩
          rcases List.mem_cons.mp (hpend hself) with hh | hh
          · exact absurd hh hid
          · exact hh

theorem pendingInv_hplSeq {self : String} :
    ∀ (ids : List String) (st : ServerState),
    PendingInv self st ids → PendingInv self (hplSeq self ids st).1 [] := by
  intro ids
  induction ids with
  | nil =>
    intro st h
    exact h
  | cons sessionId rest ih =>
    intro st h
    simp only [hplSeq]
    exact ih _ (pendingInv_hpl h)

theorem inv_of_pendingInv_nil {self : String} {st : ServerState}
    (h : PendingInv self st []) : Inv st := by
  refine ⟨h.1, ?_⟩
  intro id s hget
  obtain ⟨⟨h1, h2, h3, h4⟩, h5⟩ := h.2 id s hget
  refine ⟨h1, h2, h3, fun x hx => ?_⟩
  refine h4 x hx fun hxself => ?_
  subst hxself
  exact absurd (h5 hx) (List.not_mem_nil _)

theorem pendingInv_init {st : ServerState} (self : String) (h : Inv st) :
    PendingInv self (leaveAllRooms st self)
      ((st.activeSessions.filter (fun p => self ∈ p.2.participants)).map
        Prod.fst) := by
  refine ⟨h.1, ?_⟩
  intro id s hget
  obtain ⟨h1, h2, h3, h4⟩ := h.2 id s hget
  constructor
  · refine ⟨h1, h2, h3, fun x hx hxs => ?_⟩
    have hr := roomMembers_leaveAllRooms st self id
    rw [show roomList (leaveAllRooms st self).rooms id
          = (roomList st.rooms id).erase self from hr]
    exact (List.mem_erase_of_ne hxs).mpr (h4 x hx)
  · intro hself
    have hmem : (id, s) ∈ st.activeSessions.filter
        (fun p => self ∈ p.2.participants) :=
      List.mem_filter.mpr ⟨mapGet_mem hget, by simpa using hself⟩
    exact List.mem_map.mpr ⟨(id, s), hmem, rfl⟩

theorem inv_disconnectStep {st : ServerState} (self : String) (h : Inv st) :
    Inv (disconnectStep self st).1 := by
  rw [disconnectStep_eq]
  exact inv_of_pendingInv_nil (pendingInv_hplSeq _ _ (pendingInv_init self h))

/-! ### The invariant holds in every reachable state -/

theorem inv_step (e : Event) (st : ServerState) (h : Inv st) :
    Inv (step e st).1 := by
  cases e with
  | create self sessionId now => exact inv_createSession self sessionId now h
  | check self sessionId => exact h
  | join self sessionId now => exact inv_joinSession self sessionId now h
  | leave self sessionId => exact inv_leaveSession self sessionId h
  | close self sessionId => exact inv_closeSession self sessionId h
  | chunk self payload sessionId =>
    rw [show (step (Event.chunk self payload sessionId) st).1 = st from
      audioChunk_fst self payload sessionId st]
    exact h
  | recStart self sessionId =>
    rw [show (step (Event.recStart self sessionId) st).1 = st from
      recordingStarted_fst self sessionId st]
    exact h
  | recStop self sessionId =>
    rw [show (step (Event.recStop self sessionId) st).1 = st from
      stopRecording_fst self sessionId st]
    exact h
  | disconnect self => exact inv_disconnectStep self h
  | timerFire sessionId =>
    simp only [step]
    split
    · exact inv_fireRemoval sessionId ⟨h.1, h.2⟩
    · exact h

theorem inv_init : Inv initState := by
  constructor
  · simp [initState]
  · intro id s hget
    simp [initState, mapGet] at hget

theorem reachable_inv {st : ServerState} (h : Reachable st) : Inv st := by
  induction h with
  | init => exact inv_init
  | next e h ih => exact inv_step e _ ih

/-! ### Disconnect compared with explicit leave-session events -/

/-- Sequential processing of `leave-session` events for a list of session
ids, collecting the emissions in order. -/
def leaveSeq (self : String) : List String → ServerState → ServerState × List Emission
  | [], st => (st, [])
  | sessionId :: rest, st =>
    let r := leaveSession self sessionId st
    let r2 := leaveSeq self rest r.1
    (r2.1, r.2 ++ r2.2)

/-- `handleParticipantLeaving` reads and writes only the registry, so two
states with equal registries produce equal registries and emissions. -/
theorem hpl_congr {st1 st2 : ServerState} (self sessionId : String)
    (h : st1.activeSessions = st2.activeSessions) :
    (handleParticipantLeaving self sessionId st1).1.activeSessions =
      (handleParticipantLeaving self sessionId st2).1.activeSessions ∧
    (handleParticipantLeaving self sessionId st1).2 =
      (handleParticipantLeaving self sessionId st2).2 := by
  cases hget : mapGet st2.activeSessions sessionId with
  | none =>
    have hget1 : mapGet st1.activeSessions sessionId = none := by
      rw [h]; exact hget
    rw [hpl_absent self hget1, hpl_absent self hget]
    exact ⟨h, rfl⟩
  | some s =>
    have hget1 : mapGet st1.activeSessions sessionId = some s := by
      rw [h]; exact hget
    by_cases hemp : s.participants.erase self = []
    · rw [hpl_empties hget1 hemp, hpl_empties hget hemp]
      simp [mapDelete, h]
    · by_cases hhost : s.host = self
      · rw [hpl_host hget1 hemp hhost, hpl_host hget hemp hhost]
        simp [h]
      · rw [hpl_other hget1 hemp hhost, hpl_other hget hemp hhost]
        simp [h]

/-- Over non-empty ids, a `hplSeq` walk and a `leaveSeq` walk starting
from states with equal registries agree on registry and emissions (the
`leave-session` guard only differs from a direct helper call on a falsy
id or an absent id, and the helper is itself a no-op on an absent id). -/
theorem hplSeq_leaveSeq_agree (self : String) :
    ∀ (ids : List String) (st1 st2 : ServerState),
    st1.activeSessions = st2.activeSessions →
    (∀ id ∈ ids, id ≠ "") →
    (hplSeq self ids st1).1.activeSessions =
        (leaveSeq self ids st2).1.activeSessions ∧
    (hplSeq self ids st1).2 = (leaveSeq self ids st2).2 := by
  intro ids
  induction ids with
  | nil =>
    intro st1 st2 h _
    exact ⟨h, rfl⟩
  | cons sessionId rest ih =>
    intro st1 st2 h hids
    have hid : sessionId ≠ "" := hids sessionId (List.mem_cons_self _ _)
    have hrest : ∀ id ∈ rest, id ≠ "" :=
      fun id hm => hids id (List.mem_cons_of_mem _ hm)
    simp only [hplSeq, leaveSeq]
    cases hget : mapGet st2.activeSessions sessionId with
    | none =>
      have hget1 : mapGet st1.activeSessions sessionId = none := by
        rw [h]; exact hget
      have hls : leaveSession self sessionId st2 = (st2, []) := by
        unfold leaveSession
        rw [if_neg]
        intro hc
        rw [mapHas, hget] at hc
        exact absurd hc.2 (by simp)
      rw [hpl_absent self hget1, hls]
      simpa using ih st1 st2 h hrest
    | some s =>
      have hhas : sessionId ≠ "" ∧ mapHas st2.activeSessions sessionId = true := by
        refine ⟨hid, ?_⟩
        rw [mapHas, hget]
        rfl
      have hls : leaveSession self sessionId st2 =
          handleParticipantLeaving self sessionId st2 := by
        unfold leaveSession
        rw [if_pos hhas]
      rw [hls]
      obtain ⟨hreg, hem⟩ := hpl_congr self sessionId h
      obtain ⟨hreg2, hem2⟩ := ih (handleParticipantLeaving self sessionId st1).1
        (handleParticipantLeaving self sessionId st2).1 hreg hrest
      exact ⟨hreg2, by rw [hem, hem2]⟩

/-! ### Claims -/

/-- Claim C1, counterexample: two `create-session("s")` events from
connections "A" then "B" do not leave "A" as host with an untouched
member set — the second create overwrites the session wholesale, so the
stored session is `⟨"B", ["B"], true, 1⟩` and its host "B" is not the
first caller "A". -/
theorem createSession_not_idempotent_cex :
    mapGet (run initState [Event.create "A" "s" 0,
        Event.create "B" "s" 1]).activeSessions "s"
      = some ⟨"B", ["B"], true, 1⟩ ∧ ("B" : String) ≠ "A" :=
  ⟨rfl, by decide⟩

/-- Claim C1, amended: after two `create-session(id)` events from
connections `a` then `b`, exactly one session object exists for the id
(the registry key stays unique), but the second call overwrites the
session: its host is `b`, the connection whose create was processed
second, and its member set contains only `b`. -/
theorem createSession_second_overwrites (st : ServerState)
    (a b sessionId : String) (t0 t1 : Nat)
    (hkeys : (st.activeSessions.map Prod.fst).Nodup) :
    mapGet (run st [Event.create a sessionId t0,
        Event.create b sessionId t1]).activeSessions sessionId
      = some ⟨b, [b], true, t1⟩ ∧
    ((run st [Event.create a sessionId t0,
        Event.create b sessionId t1]).activeSessions.map
        Prod.fst).count sessionId = 1 := by
  have h1 : (run st [Event.create a sessionId t0,
        Event.create b sessionId t1]).activeSessions
      = mapSet (mapSet st.activeSessions sessionId ⟨a, [a], true, t0⟩)
          sessionId ⟨b, [b], true, t1⟩ := rfl
  rw [h1]
  refine ⟨mapGet_set_self _ _ _, ?_⟩
  have hn := keys_mapSet_nodup sessionId (Session.mk b [b] true t1)
    (keys_mapSet_nodup sessionId (Session.mk a [a] true t0) hkeys)
  exact List.count_eq_one_of_mem hn
    (mem_keys_of_mapGet (mapGet_set_self _ _ _))

theorem createSession_second_overwrites_witness :
    mapGet (run initState [Event.create "A" "s" 0,
        Event.create "B" "s" 1]).activeSessions "s"
      = some ⟨"B", ["B"], true, 1⟩ ∧
    ((run initState [Event.create "A" "s" 0,
        Event.create "B" "s" 1]).activeSessions.map Prod.fst).count "s" = 1 :=
  createSession_second_overwrites initState "A" "B" "s" 0 1 (by simp [initState])

/-- Claim C2: in every reachable server state, the host of every session
whose lifecycle flag is still `active` is an element of the session's
member set; and this is preserved by every operation, i.e. it also holds
after one further arbitrary event from any reachable state. -/
theorem activeSession_host_mem :
    (∀ st : ServerState, Reachable st → ∀ sessionId s,
        mapGet st.activeSessions sessionId = some s → s.active = true →
        s.host ∈ s.participants) ∧
    (∀ (e : Event) (st : ServerState), Reachable st → ∀ sessionId s,
        mapGet (step e st).1.activeSessions sessionId = some s →
        s.active = true → s.host ∈ s.participants) := by
  constructor
  · intro st h sessionId s hget _
    exact ((reachable_inv h).2 sessionId s hget).2.1
  · intro e st h sessionId s hget _
    exact ((reachable_inv (Reachable.next e h)).2 sessionId s hget).2.1

theorem activeSession_host_mem_witness :
    ("A" : String) ∈ ["A"] :=
  activeSession_host_mem.1 _
    (Reachable.next (Event.create "A" "s" 0) Reachable.init) "s"
    ⟨"A", ["A"], true, 0⟩ rfl rfl

/-- Claim C4: in every reachable state the registry holds no session with
an empty member set; and when a participant removal empties a session's
member set, `handleParticipantLeaving` deletes the session in the same
step — afterwards its id resolves to nothing, `check-session` reports it
absent, and the pending-timer list is untouched (no timer is involved in
the removal). -/
theorem emptySession_removed_immediately :
    (∀ st : ServerState, Reachable st → ∀ sessionId s,
        mapGet st.activeSessions sessionId = some s →
        s.participants ≠ []) ∧
    (∀ (st : ServerState) (c sessionId : String) (s : Session),
        mapGet st.activeSessions sessionId = some s →
        s.participants.erase c = [] →
        mapGet (handleParticipantLeaving c sessionId st).1.activeSessions
            sessionId = none ∧
        checkSession (handleParticipantLeaving c sessionId st).1 sessionId
            = false ∧
        (handleParticipantLeaving c sessionId st).1.timers = st.timers) := by
  constructor
  · intro st h sessionId s hget
    exact ((reachable_inv h).2 sessionId s hget).1
  · intro st c sessionId s hget hemp
    rw [hpl_empties hget hemp]
    refine ⟨mapGet_delete_self _ _, ?_, rfl⟩
    simp [checkSession, mapGet_delete_self]

theorem emptySession_removed_immediately_witness :
    (["A"] : List String) ≠ [] ∧
    mapGet (handleParticipantLeaving "A" "s"
        (run initState [Event.create "A" "s" 0])).1.activeSessions "s"
      = none :=
  ⟨emptySession_removed_immediately.1 _
      (Reachable.next (Event.create "A" "s" 0) Reachable.init) "s"
      ⟨"A", ["A"], true, 0⟩ rfl,
   (emptySession_removed_immediately.2
      (run initState [Event.create "A" "s" 0]) "A" "s"
      ⟨"A", ["A"], true, 0⟩ rfl rfl).1⟩

/-- Claim C3, counterexample, in two parts.  Leak: "B" joins session "s"
and then leaves it by `leave-session`; the registry then stores `"s"`
with member set `["A"]` only, so "B" belongs to no session — yet the
server never removes "B" from the socket.io room, so "A"'s `audio-chunk`
is still delivered to "B", refuting that no connection belonging to no
session receives the payload.  Drop: `create-session`/`join-session`
accept the empty string as a session id, producing an active blank-keyed
session with members `["A", "B"]` — and there the `!sessionId` guard of
the `audio-chunk` handler drops the chunk whole, so member "B" receives
nothing, refuting that every member except the sender receives it. -/
theorem audioChunk_reaches_former_member_cex :
    ((run initState [Event.create "A" "s" 0, Event.join "B" "s" 1,
        Event.leave "B" "s"]).activeSessions
      = [("s", ⟨"A", ["A"], true, 0⟩)] ∧
    ("B" : String) ∉ (["A"] : List String) ∧
    (audioChunk "A" [7] "s" (run initState [Event.create "A" "s" 0,
        Event.join "B" "s" 1, Event.leave "B" "s"])).2
      = [⟨Target.roomExcept "s" "A", "audio-chunk", Payload.audio [7]⟩] ∧
    deliversTo (run initState [Event.create "A" "s" 0, Event.join "B" "s" 1,
        Event.leave "B" "s"])
      ⟨Target.roomExcept "s" "A", "audio-chunk", Payload.audio [7]⟩ "B"
      = true) ∧
    ((run initState [Event.create "A" "" 0,
        Event.join "B" "" 1]).activeSessions
      = [("", ⟨"A", ["A", "B"], true, 0⟩)] ∧
    (audioChunk "A" [7] "" (run initState [Event.create "A" "" 0,
        Event.join "B" "" 1])).2 = []) :=
  ⟨⟨rfl, by decide, rfl, rfl⟩, ⟨rfl, rfl⟩⟩

/-- Claim C3, amended: when a member of an `active` session whose id is a
non-empty string sends `audio-chunk`, the state is unchanged and the
payload is emitted, as-is, to the session's socket.io room minus the
sender: every current member other than the sender receives it and the
sender never receives it back — but the recipient set is the room, which
may also contain former members that left without disconnecting, and for
a session stored under the empty-string id the handler's truthiness
guard drops the chunk entirely so nobody receives it (see the
counterexample for both divergences). -/
theorem audioChunk_room_fanout (st : ServerState) (self : String)
    (payload : Chunk) (sessionId : String) (s : Session)
    (hre : Reachable st) (hid : sessionId ≠ "")
    (hget : mapGet st.activeSessions sessionId = some s)
    (hact : s.active = true) (_hmem : self ∈ s.participants) :
    (audioChunk self payload sessionId st).1 = st ∧
    (audioChunk self payload sessionId st).2 =
      [⟨Target.roomExcept sessionId self, "audio-chunk",
        Payload.audio payload⟩] ∧
    (∀ x ∈ s.participants, x ≠ self →
        deliversTo st ⟨Target.roomExcept sessionId self, "audio-chunk",
          Payload.audio payload⟩ x = true) ∧
    deliversTo st ⟨Target.roomExcept sessionId self, "audio-chunk",
      Payload.audio payload⟩ self = false := by
  have heq := audioChunk_active self payload hid hget hact
  refine ⟨by rw [heq], by rw [heq], ?_, ?_⟩
  · intro x hx hxs
    have hroom := ((reachable_inv hre).2 sessionId s hget).2.2.2 x hx
    simp [deliversTo, roomMembers, hxs, hroom]
  · simp [deliversTo]

theorem audioChunk_room_fanout_witness :
    deliversTo (run initState [Event.create "A" "s" 0, Event.join "B" "s" 1])
        ⟨Target.roomExcept "s" "A", "audio-chunk", Payload.audio [7]⟩ "B"
      = true ∧
    deliversTo (run initState [Event.create "A" "s" 0, Event.join "B" "s" 1])
        ⟨Target.roomExcept "s" "A", "audio-chunk", Payload.audio [7]⟩ "A"
      = false := by
  have h := audioChunk_room_fanout
    (run initState [Event.create "A" "s" 0, Event.join "B" "s" 1])
    "A" [7] "s" ⟨"A", ["A", "B"], true, 0⟩
    (Reachable.next (Event.join "B" "s" 1)
      (Reachable.next (Event.create "A" "s" 0) Reachable.init))
    (by decide) rfl rfl (by decide)
  exact ⟨h.2.2.1 "B" (by decide) (by decide), h.2.2.2⟩

/-- Claim C5, counterexample, in two parts.  Reuse: host "H" closes "s"
(scheduling the delayed removal), "H" disconnects (the session empties
and is removed), and "X" creates "s" afresh; when the timer fires, its
existence-only guard sees the reused id present and deletes "X"'s fresh
session — the fire is not a no-op on a reused id.  Drop: a session can
be stored under the empty-string id, and there the host's
`close-session("")` is dropped whole by the `if (sessionId && ...)`
guard — the session is not marked inactive, no timer is scheduled and
nothing is emitted, refuting that a host's close always marks the
session Closing and schedules its removal. -/
theorem closeTimer_deletes_reused_id_cex :
    (mapGet (run initState [Event.create "H" "s" 0, Event.close "H" "s",
        Event.disconnect "H", Event.create "X" "s" 5]).activeSessions "s"
      = some ⟨"X", ["X"], true, 5⟩ ∧
    mapGet (run initState [Event.create "H" "s" 0, Event.close "H" "s",
        Event.disconnect "H", Event.create "X" "s" 5,
        Event.timerFire "s"]).activeSessions "s" = none) ∧
    (mapGet (run initState [Event.create "A" "" 0]).activeSessions ""
      = some ⟨"A", ["A"], true, 0⟩ ∧
    closeSession "A" "" (run initState [Event.create "A" "" 0])
      = (run initState [Event.create "A" "" 0], [])) :=
  ⟨⟨rfl, rfl⟩, ⟨rfl, rfl⟩⟩

/-- Claim C5, amended: a host's `close-session` for a session stored
under a non-empty id marks the session inactive and schedules its
removal (a `close-session("")` is dropped whole by the handler's
truthiness guard); the timer's fire is a no-op on the registry exactly
when the id is absent at fire time (so an emptied, unreused id leaves no
stale entry behind) — but the fire deletes whatever session is stored
under the id, including a fresh session created under a reused id (see
the counterexample for both divergences). -/
theorem closeTimer_noop_iff_absent (st : ServerState)
    (self sessionId : String) (s : Session) (hid : sessionId ≠ "")
    (hget : mapGet st.activeSessions sessionId = some s)
    (hhost : s.host = self) :
    (mapGet (closeSession self sessionId st).1.activeSessions sessionId
        = some { s with active := false } ∧
      sessionId ∈ (closeSession self sessionId st).1.timers) ∧
    (∀ st' : ServerState, mapGet st'.activeSessions sessionId = none →
        fireRemoval sessionId st' = st') ∧
    (∀ (st' : ServerState) (t : Session),
        mapGet st'.activeSessions sessionId = some t →
        mapGet (fireRemoval sessionId st').activeSessions sessionId
          = none) := by
  refine ⟨?_, ?_, ?_⟩
  · rw [closeSession_host hid hget hhost]
    exact ⟨mapGet_set_self _ _ _, by simp⟩
  · intro st' h
    have hc : ¬mapHas st'.activeSessions sessionId = true := by
      rw [mapHas, h]
      simp
    unfold fireRemoval
    rw [if_neg hc]
  · intro st' t h
    have hc : mapHas st'.activeSessions sessionId = true := by
      rw [mapHas, h]
      rfl
    unfold fireRemoval
    rw [if_pos hc]
    exact mapGet_delete_self _ _

theorem closeTimer_noop_iff_absent_witness :
    ("s" : String) ∈
      (closeSession "H" "s" (run initState [Event.create "H" "s" 0])).1.timers ∧
    fireRemoval "s" initState = initState :=
  ⟨(closeTimer_noop_iff_absent (run initState [Event.create "H" "s" 0]) "H" "s"
      ⟨"H", ["H"], true, 0⟩ (by decide) rfl rfl).1.2,
   (closeTimer_noop_iff_absent (run initState [Event.create "H" "s" 0]) "H" "s"
      ⟨"H", ["H"], true, 0⟩ (by decide) rfl rfl).2.1 initState rfl⟩

/-- Claim C6: a `join-session` against a session that exists but is
marked inactive leaves the whole state unchanged (registry, rooms and
timers — atomicity on error) and emits exactly one `session-error` with
code `SESSION_CLOSED`, targeted at the joining connection alone; it is
delivered to no other connection. -/
theorem joinClosed_error_to_sender_only (st : ServerState)
    (self sessionId : String) (now : Nat) (s : Session)
    (hget : mapGet st.activeSessions sessionId = some s)
    (hact : s.active = false) :
    (joinSession self sessionId now st).1 = st ∧
    (joinSession self sessionId now st).2 =
      [⟨Target.sock self, "session-error",
        Payload.err "SESSION_CLOSED"
          "This session has been closed by the host."⟩] ∧
    (∀ r : String, r ≠ self →
        deliversTo st ⟨Target.sock self, "session-error",
          Payload.err "SESSION_CLOSED"
            "This session has been closed by the host."⟩ r = false) := by
  have heq := joinSession_closed self now hget hact
  refine ⟨by rw [heq], by rw [heq], ?_⟩
  intro r hr
  simp [deliversTo, hr]

theorem joinClosed_error_to_sender_only_witness :
    (joinSession "B" "s" 7 (run initState [Event.create "A" "s" 0,
        Event.close "A" "s"])).1
      = run initState [Event.create "A" "s" 0, Event.close "A" "s"] ∧
    deliversTo (run initState [Event.create "A" "s" 0, Event.close "A" "s"])
        ⟨Target.sock "B", "session-error",
          Payload.err "SESSION_CLOSED"
            "This session has been closed by the host."⟩ "A" = false := by
  have h := joinClosed_error_to_sender_only
    (run initState [Event.create "A" "s" 0, Event.close "A" "s"])
    "B" "s" 7 ⟨"A", ["A"], false, 0⟩ rfl rfl
  exact ⟨h.1, h.2.2 "A" (by decide)⟩

/-- Claim C7: a `join-session` for an id absent from the registry creates
a new active session with the joiner as host and sole member, and emits
exactly one `connection-successful` to the joiner with role `host` and
status `created-on-join` — in particular no `session-error` is emitted. -/
theorem joinUnknown_creates_on_join (st : ServerState)
    (self sessionId : String) (now : Nat)
    (hget : mapGet st.activeSessions sessionId = none) :
    mapGet (joinSession self sessionId now st).1.activeSessions sessionId
      = some ⟨self, [self], true, now⟩ ∧
    (joinSession self sessionId now st).2 =
      [⟨Target.sock self, "connection-successful",
        Payload.conn sessionId "host" none (some "created-on-join")⟩] := by
  rw [joinSession_absent self sessionId now hget]
  exact ⟨mapGet_set_self _ _ _, rfl⟩

theorem joinUnknown_creates_on_join_witness :
    mapGet (joinSession "A" "s" 3 initState).1.activeSessions "s"
      = some ⟨"A", ["A"], true, 3⟩ ∧
    (joinSession "A" "s" 3 initState).2 =
      [⟨Target.sock "A", "connection-successful",
        Payload.conn "s" "host" none (some "created-on-join")⟩] :=
  joinUnknown_creates_on_join initState "A" "s" 3 rfl

/-- Claim C8, counterexample: `create-session` accepts the empty string
as a session id, and connection "A" is a member of that session; a
`disconnect` of "A" removes the session (the `Map.forEach` walk has no
truthiness guard), but a `leave-session("")` by "A" is a no-op because
the handler's `if (sessionId && ...)` guard drops the falsy id — the two
registries differ, refuting the claimed equivalence for every session id
containing the connection. -/
theorem disconnect_vs_leave_blank_id_cex :
    ("A" : String) ∈ (Session.mk "A" ["A"] true 0).participants ∧
    mapGet (run initState [Event.create "A" "" 0]).activeSessions ""
      = some ⟨"A", ["A"], true, 0⟩ ∧
    (disconnectStep "A"
        (run initState [Event.create "A" "" 0])).1.activeSessions = [] ∧
    (leaveSession "A" ""
        (run initState [Event.create "A" "" 0])).1.activeSessions
      = [("", ⟨"A", ["A"], true, 0⟩)] :=
  ⟨by decide, rfl, rfl, rfl⟩

/-- Claim C8, amended: provided every session id whose member set
contains the connection is a non-empty string, a `disconnect` has exactly
the registry effect and emission sequence of processing a `leave-session`
for each such id in registry iteration order. -/
theorem disconnect_eq_leaveSeq_on_nonblank_ids (st : ServerState)
    (self : String)
    (hids : ∀ id ∈ (st.activeSessions.filter
        (fun p => self ∈ p.2.participants)).map Prod.fst, id ≠ "") :
    (disconnectStep self st).1.activeSessions =
      (leaveSeq self ((st.activeSessions.filter
        (fun p => self ∈ p.2.participants)).map Prod.fst)
        st).1.activeSessions ∧
    (disconnectStep self st).2 =
      (leaveSeq self ((st.activeSessions.filter
        (fun p => self ∈ p.2.participants)).map Prod.fst) st).2 := by
  rw [disconnectStep_eq]
  exact hplSeq_leaveSeq_agree self _ (leaveAllRooms st self) st rfl hids

theorem disconnect_eq_leaveSeq_witness :
    (disconnectStep "A"
        (run initState [Event.create "A" "s" 0])).1.activeSessions
      = (leaveSeq "A" ["s"]
          (run initState [Event.create "A" "s" 0])).1.activeSessions ∧
    (disconnectStep "A" (run initState [Event.create "A" "s" 0])).2
      = (leaveSeq "A" ["s"] (run initState [Event.create "A" "s" 0])).2 :=
  disconnect_eq_leaveSeq_on_nonblank_ids
    (run initState [Event.create "A" "s" 0]) "A" (by decide)

/-- Claim C9: when the departing connection was the host and the member
set is non-empty after removal, the new host is the first remaining
member in iteration order (the head of the remaining list — the pick is a
deterministic function of the state), that member is indeed a remaining
member, and a `new-host` event naming it is broadcast to the session's
room right after the `participant-left` event. -/
theorem hostLeft_first_remaining_becomes_host (st : ServerState)
    (c sessionId : String) (s : Session) (h : String) (t : List String)
    (hget : mapGet st.activeSessions sessionId = some s)
    (hhost : s.host = c)
    (hrem : s.participants.erase c = h :: t) :
    mapGet (handleParticipantLeaving c sessionId st).1.activeSessions
        sessionId
      = some { s with participants := h :: t, host := h } ∧
    h ∈ s.participants.erase c ∧
    (handleParticipantLeaving c sessionId st).2 =
      [⟨Target.room sessionId, "participant-left", Payload.str c⟩,
       ⟨Target.room sessionId, "new-host", Payload.str h⟩] := by
  have hne : s.participants.erase c ≠ [] := by simp [hrem]
  rw [hpl_host hget hne hhost]
  refine ⟨?_, ?_, ?_⟩
  · rw [mapGet_set_self, hrem]
    simp
  · rw [hrem]
    exact List.mem_cons_self h t
  · rw [hrem]
    simp

theorem hostLeft_first_remaining_witness :
    mapGet (handleParticipantLeaving "H" "s" (run initState
        [Event.create "H" "s" 0, Event.join "P1" "s" 1,
         Event.join "P2" "s" 2])).1.activeSessions "s"
      = some ⟨"P1", ["P1", "P2"], true, 0⟩ ∧
    (handleParticipantLeaving "H" "s" (run initState
        [Event.create "H" "s" 0, Event.join "P1" "s" 1,
         Event.join "P2" "s" 2])).2 =
      [⟨Target.room "s", "participant-left", Payload.str "H"⟩,
       ⟨Target.room "s", "new-host", Payload.str "P1"⟩] := by
  have hth := hostLeft_first_remaining_becomes_host
    (run initState [Event.create "H" "s" 0, Event.join "P1" "s" 1,
      Event.join "P2" "s" 2])
    "H" "s" ⟨"H", ["H", "P1", "P2"], true, 0⟩ "P1" ["P2"] rfl rfl (by decide)
  exact ⟨hth.1, hth.2.2⟩

/-- Claim C10, counterexample: a session can be stored under the
empty-string id, and a `leave-session("")` from non-member "Z" is
dropped whole by the handler's `if (sessionId && ...)` guard: the state
is unchanged but nothing at all is emitted — no `participant-left`
reaches the member "A", refuting that the server still broadcasts
`participant-left` for every leave by a non-member of an existing
session. -/
theorem leave_blank_nonmember_noop_cex :
    mapGet (run initState [Event.create "A" "" 0]).activeSessions ""
      = some ⟨"A", ["A"], true, 0⟩ ∧
    ("Z" : String) ∉ (["A"] : List String) ∧
    leaveSession "Z" "" (run initState [Event.create "A" "" 0])
      = (run initState [Event.create "A" "" 0], []) :=
  ⟨rfl, by decide, rfl⟩

/-- Claim C10, amended: a `leave-session` for an existing session whose
id is a non-empty string, from a connection that is not a member, still
broadcasts `participant-left` carrying that connection's id to the
session's room — every member receives it — while the whole server state
(hence the session's member set, host and lifecycle flag) is unchanged:
membership is not a precondition of leave.  For the empty-string id the
truthiness guard drops the event entirely, so nothing is broadcast (see
the counterexample). -/
theorem leave_nonmember_broadcasts_unchanged (st : ServerState)
    (c sessionId : String) (s : Session)
    (hre : Reachable st) (hid : sessionId ≠ "")
    (hget : mapGet st.activeSessions sessionId = some s)
    (hnm : c ∉ s.participants) :
    (leaveSession c sessionId st).1 = st ∧
    (leaveSession c sessionId st).2 =
      [⟨Target.room sessionId, "participant-left", Payload.str c⟩] ∧
    (∀ x ∈ s.participants,
        deliversTo st ⟨Target.room sessionId, "participant-left",
          Payload.str c⟩ x = true) := by
  obtain ⟨h1, h2, h3, h4⟩ := (reachable_inv hre).2 sessionId s hget
  have hhost : s.host ≠ c := fun hh => hnm (hh ▸ h2)
  have herase : s.participants.erase c = s.participants :=
    List.erase_of_not_mem hnm
  have hemp : s.participants.erase c ≠ [] := by
    rw [herase]
    exact h1
  have hls : leaveSession c sessionId st =
      handleParticipantLeaving c sessionId st := by
    unfold leaveSession
    rw [if_pos ⟨hid, by rw [mapHas, hget]; rfl⟩]
  have hsession : { s with participants := s.participants.erase c } = s := by
    rw [herase]
  refine ⟨?_, ?_, ?_⟩
  · rw [hls, hpl_other hget hemp hhost]
    show ServerState.mk (mapSet st.activeSessions sessionId
        { s with participants := s.participants.erase c })
      st.rooms st.timers = st
    rw [hsession, mapSet_get_self hget]
  · rw [hls, hpl_other hget hemp hhost]
  · intro x hx
    simp [deliversTo, roomMembers, h4 x hx]

theorem leave_nonmember_witness :
    (leaveSession "Z" "s" (run initState [Event.create "H" "s" 0])).1
      = run initState [Event.create "H" "s" 0] ∧
    (leaveSession "Z" "s" (run initState [Event.create "H" "s" 0])).2
      = [⟨Target.room "s", "participant-left", Payload.str "Z"⟩] := by
  have h := leave_nonmember_broadcasts_unchanged
    (run initState [Event.create "H" "s" 0]) "Z" "s" ⟨"H", ["H"], true, 0⟩
    (Reachable.next (Event.create "H" "s" 0) Reachable.init)
    (by decide) rfl (by decide)
  exact ⟨h.1, h.2.1⟩

end AudioLive
